import Mathlib

/-!
Shallow embedding of the geothermal scoring pipeline
(`scripts/process_dataset.py`).

Exact decimal inputs (spreadsheet coordinates and heat-flow values) are
modelled as rationals; quantities produced by transcendental functions
(`np.exp`, `np.arcsin`, `np.sin`, ...) are modelled as real numbers, with
the idealisation that float arithmetic is exact real arithmetic.
`ndarray.round` / Python `round` round half to even, embedded by `rne`.
-/

namespace GeoGlobe

/-- Round half to even (the rounding used by Python `round` and
`numpy.ndarray.round`), over any linear ordered field with floor. -/
def rne {α : Type} [LinearOrderedField α] [FloorRing α] (x : α) : ℤ :=
  if Int.fract x = 1 / 2 then (if Even ⌊x⌋ then ⌊x⌋ else ⌊x⌋ + 1) else round x

/-- `round(x, 4)` on exact rationals. -/
def round4Q (x : ℚ) : ℚ := (rne (x * 10000) : ℚ) / 10000

/-- `round(x, 1)` on exact rationals. -/
def round1Q (x : ℚ) : ℚ := (rne (x * 10) : ℚ) / 10

/-- `x.round(4)` on reals (the composite-score rounding at line 41). -/
noncomputable def round4R (x : ℝ) : ℝ := (rne (x * 10000) : ℝ) / 10000

/-- `round(x, 1)` on reals. -/
noncomputable def round1R (x : ℝ) : ℝ := (rne (x * 10) : ℝ) / 10

/-- One raw spreadsheet row of the measurement table: columns
`lat_NS`, `long_EW`, `qc`, `q`, any of which may be missing (NaN). -/
structure RawMeasurement where
  lat_NS : Option ℚ
  long_EW : Option ℚ
  qc : Option ℚ
  q : Option ℚ
deriving DecidableEq

/-- A measurement that survived filtering. -/
structure Measurement where
  lat : ℚ
  lon : ℚ
  heat_flow : ℚ
deriving DecidableEq

/-- `df['qc'].combine_first(df['q'])` (line 15): the corrected heat flow
where available, falling back to the raw value. -/
def resolveHF (r : RawMeasurement) : Option ℚ :=
  match r.qc with
  | some v => some v
  | none => r.q

/-- `df.dropna(subset=['lat_NS', 'long_EW', 'heat_flow'])` (line 18):
keep rows whose coordinates and resolved heat flow are all present. -/
def dropNA (raw : List RawMeasurement) : List Measurement :=
  raw.filterMap fun r =>
    match r.lat_NS, r.long_EW, resolveHF r with
    | some la, some lo, some hf => some ⟨la, lo, hf⟩
    | _, _, _ => none

/-- Lines 15-20: resolve the heat flow, drop rows with missing fields,
then keep only strictly positive heat flow (`df[df['heat_flow'] > 0]`). -/
def loadMeasurements (raw : List RawMeasurement) : List Measurement :=
  (dropNA raw).filter fun m => 0 < m.heat_flow

/-- `Series.quantile(0.995)` with the default linear interpolation
(line 23): sort ascending, take position `0.995 * (n - 1)` and
interpolate linearly between its two neighbouring order statistics. -/
def quantile995 (l : List ℚ) : ℚ :=
  let s := List.insertionSort (· ≤ ·) l
  let h : ℚ := (995 : ℚ) / 1000 * ((l.length : ℚ) - 1)
  let i : ℕ := ⌊h⌋.toNat
  if i + 1 < s.length then
    s.getD i 0 + (h - (i : ℚ)) * (s.getD (i + 1) 0 - s.getD i 0)
  else s.getD i 0

/-- `df['heat_flow'].clip(upper=cap) / cap` (line 24) for one value. -/
def hfScore (cap hf : ℚ) : ℚ := min hf cap / cap

/-- `np.radians` on a degree value: multiply by π / 180. -/
noncomputable def radians (x : ℚ) : ℝ := (x : ℝ) * Real.pi / 180

/-- The haversine intermediate `a` (lines 72-74):
`sin(dlat/2)^2 + cos(lat1) * cos(lat2) * sin(dlon/2)^2`. -/
noncomputable def havA (lat1 lon1 lat2 lon2 : ℝ) : ℝ :=
  Real.sin ((lat1 - lat2) / 2) ^ 2 +
    Real.cos lat1 * Real.cos lat2 * Real.sin ((lon1 - lon2) / 2) ^ 2

/-- `np.clip(a, 0, 1)` (line 75). -/
noncomputable def clip01 (x : ℝ) : ℝ := min (max x 0) 1

/-- The selection-loop distance (line 75):
`2 * 6371 * arcsin(sqrt(clip(a, 0, 1)))` in kilometres. -/
noncomputable def havSelKm (lat1 lon1 lat2 lon2 : ℝ) : ℝ :=
  2 * 6371 * Real.arcsin (Real.sqrt (clip01 (havA lat1 lon1 lat2 lon2)))

/-- sklearn's haversine metric used by the BallTree (line 29): central
angle `2 * arcsin(sqrt(a))` in radians. -/
noncomputable def havTreeRad (lat1 lon1 lat2 lon2 : ℝ) : ℝ :=
  2 * Real.arcsin (Real.sqrt (havA lat1 lon1 lat2 lon2))

/-- `tree.query(..., k=1)` (line 33): the exact smallest haversine
distance (in radians) from the query point to any boundary point.
Points are `(lat, lon)` in degrees. -/
noncomputable def nearestRad (p : ℚ × ℚ) (bs : List (ℚ × ℚ)) : ℝ :=
  match bs with
  | [] => 0
  | b :: rest =>
    (rest.map fun c =>
        havTreeRad (radians p.1) (radians p.2) (radians c.1) (radians c.2)).foldl
      min (havTreeRad (radians p.1) (radians p.2) (radians b.1) (radians b.2))

/-- A fully scored measurement row (columns of `df` after line 41). -/
structure Scored where
  lat : ℚ
  lon : ℚ
  heat_flow : ℚ
  hf_score : ℚ
  dist_km : ℝ
  proximity : ℝ
  score : ℝ

/-- Lines 23-41 for a single surviving measurement: normalised heat
flow, distance to the nearest boundary (`* 6371` km), exponential
proximity with `sigma_km = 300`, and the rounded composite score
`(0.70 * hf_score + 0.30 * proximity).round(4)`. -/
noncomputable def scoreRow (cap : ℚ) (bs : List (ℚ × ℚ)) (m : Measurement) : Scored :=
  let d : ℝ := nearestRad (m.lat, m.lon) bs * 6371
  { lat := m.lat
    lon := m.lon
    heat_flow := m.heat_flow
    hf_score := hfScore cap m.heat_flow
    dist_km := d
    proximity := Real.exp (-d / 300)
    score := round4R (0.70 * ((hfScore cap m.heat_flow : ℚ) : ℝ) + 0.30 * Real.exp (-d / 300)) }

/-- The ScoreEngine (lines 23-41): the cap is the 99.5th-percentile of
the surviving heat flows, then every measurement is scored. -/
noncomputable def scoreMeasurements (ms : List Measurement) (bs : List (ℚ × ℚ)) :
    List Scored :=
  ms.map (scoreRow (quantile995 (ms.map Measurement.heat_flow)) bs)

/-- The separation test of the selection loop (lines 70-77): candidate
`x` (raw coordinates) against an accepted site `s`, whose coordinates
were stored rounded to 4 decimals (lines 80-81), is too close when the
haversine distance is strictly below `MIN_SEP_KM = 500`. -/
noncomputable def tooClose (x s : Scored) : Prop :=
  havSelKm (radians x.lat) (radians x.lon)
    (radians (round4Q s.lat)) (radians (round4Q s.lon)) < 500

noncomputable instance : DecidableRel tooClose := fun _ _ => Classical.dec _

/-- The greedy selection loop (lines 62-86): stop at 20 accepted sites,
skip a candidate that is too close to any accepted site, otherwise
append it with rank `len(top_sites) + 1`. -/
noncomputable def greedyAux (acc : List (ℕ × Scored)) : List Scored → List (ℕ × Scored)
  | [] => acc
  | x :: xs =>
    if 20 ≤ acc.length then acc
    else if ∃ s ∈ acc, tooClose x s.2 then greedyAux acc xs
    else greedyAux (acc ++ [(acc.length + 1, x)]) xs

/-- The comparison realised by `df.sort_values('score', ascending=False)`. -/
noncomputable def scoreGE (a b : Scored) : Prop := b.score ≤ a.score

noncomputable instance : DecidableRel scoreGE := fun _ _ => Classical.dec _

/-- `df.sort_values('score', ascending=False)` (line 61), modelled as a
stable descending sort (pandas argsorts the reversed column and reverses
the result, which keeps tied rows in input order when the underlying
kind is stable; the numpy default introsort is stable only for short
inputs — see the sorting theorems below). -/
noncomputable def sortDesc (l : List Scored) : List Scored :=
  List.insertionSort scoreGE l

/-- The SiteSelector (lines 61-86): sort by score descending, then run
the greedy minimum-separation loop. Each accepted site keeps its rank
and its underlying scored row. -/
noncomputable def selectSites (l : List Scored) : List (ℕ × Scored) :=
  greedyAux [] (sortDesc l)

/-- One entry of `top_sites` (lines 79-86): the stored dict with
rounded fields. -/
structure SiteCandidate where
  rank : ℕ
  lat : ℚ
  lon : ℚ
  score : ℝ
  hf : ℚ
  bd : ℝ

/-- Formatting of an accepted site into its output dict (lines 79-86). -/
noncomputable def toCandidate (p : ℕ × Scored) : SiteCandidate :=
  { rank := p.1
    lat := round4Q p.2.lat
    lon := round4Q p.2.lon
    score := round4R p.2.score
    hf := round1Q p.2.heat_flow
    bd := round1R p.2.dist_km }

/-- One heatmap record (lines 46-54). -/
structure HeatRecord where
  lon : ℚ
  lat : ℚ
  score : ℝ
  hf : ℚ
  bd : ℝ

/-- Formatting of a scored row into its heatmap record (lines 46-54). -/
noncomputable def toHeatRecord (s : Scored) : HeatRecord :=
  { lon := round4Q s.lon
    lat := round4Q s.lat
    score := s.score
    hf := round1Q s.heat_flow
    bd := round1R s.dist_km }

/-- One raw row of the plate-boundary table `all.csv`: `lat`, `lon`
(possibly missing) and the plate identifier. -/
structure RawBoundary where
  lat : Option ℚ
  lon : Option ℚ
  plate : String
deriving DecidableEq

/-- `pd.read_csv('all.csv').dropna(subset=['lat', 'lon'])` (line 27):
the boundary points `(lat, lon)` with both coordinates present. -/
def loadBoundaries (raw : List RawBoundary) : List (ℚ × ℚ) :=
  raw.filterMap fun r =>
    match r.lat, r.lon with
    | some la, some lo => some (la, lo)
    | _, _ => none

/-- The rows fed to the path grouping (lines 96-97): drop rows with a
missing coordinate and keep `(plate, [round(lon, 4), round(lat, 4)])`. -/
def boundaryRows (raw : List RawBoundary) : List (String × (ℚ × ℚ)) :=
  raw.filterMap fun r =>
    match r.lat, r.lon with
    | some la, some lo => some (r.plate, (round4Q lo, round4Q la))
    | _, _ => none

/-- `segments[row['plate']].append(pt)` on an insertion-ordered map
(`defaultdict` over a Python dict preserves first-insertion key order):
append the point to the plate's bucket, or add a new bucket at the end. -/
def insertPt (segs : List (String × List (ℚ × ℚ))) (p : String) (pt : ℚ × ℚ) :
    List (String × List (ℚ × ℚ)) :=
  match segs with
  | [] => [(p, [pt])]
  | (q₀, pts) :: rest =>
    if q₀ = p then (q₀, pts ++ [pt]) :: rest else (q₀, pts) :: insertPt rest p pt

/-- The BoundaryPathBuilder (lines 94-101): group the surviving rows by
plate in row order; `boundary_paths` lists one `(plate, path)` pair per
distinct plate, in first-occurrence order. -/
def buildPaths (raw : List RawBoundary) : List (String × List (ℚ × ℚ)) :=
  (boundaryRows raw).foldl (fun segs t => insertPt segs t.1 t.2) []

/-- The path stored for a given plate, if any. -/
def findPath (segs : List (String × List (ℚ × ℚ))) (p : String) :
    Option (List (ℚ × ℚ)) :=
  (segs.find? fun s => s.1 = p).map (·.2)

/-- The whole pipeline as one function from the two input tables to the
three outputs. sklearn's `BallTree` constructor (line 29) and
`BallTree.query` (line 33) validate their input through `check_array`,
which rejects an array with 0 samples, so an empty boundary set aborts
at the tree build and an empty measurement set aborts at the query —
both before the first output file is written (line 57). -/
noncomputable def runPipeline (rawM : List RawMeasurement) (rawB : List RawBoundary) :
    Except String
      (List HeatRecord × List SiteCandidate × List (String × List (ℚ × ℚ))) :=
  let ms := loadMeasurements rawM
  let bs := loadBoundaries rawB
  if bs.isEmpty then .error "BallTree: found array with 0 samples"
  else if ms.isEmpty then .error "BallTree.query: found array with 0 samples"
  else
    let scored := scoreMeasurements ms bs
    .ok (scored.map toHeatRecord, (selectSites scored).map toCandidate, buildPaths rawB)

/-! ## Theorems -/

/-! ### Arithmetic helper lemmas -/

theorem rne_nonneg {α : Type} [LinearOrderedField α] [FloorRing α] {x : α}
    (hx : 0 ≤ x) : 0 ≤ rne x := by
  unfold rne
  have hfl : (0 : ℤ) ≤ ⌊x⌋ := Int.floor_nonneg.2 hx
  split
  · split <;> omega
  · rw [round_eq]
    exact Int.floor_nonneg.2 (by linarith)

theorem rne_le_of_le {α : Type} [LinearOrderedField α] [FloorRing α] {x : α} {N : ℤ}
    (hx : x ≤ N) : rne x ≤ N := by
  unfold rne
  split
  · next hfr =>
    have hxeq : x = (⌊x⌋ : α) + 1 / 2 := by
      have : Int.fract x = x - ⌊x⌋ := rfl
      rw [this] at hfr
      linarith
    have hlt : ⌊x⌋ < N := by
      have : (⌊x⌋ : α) + 1 / 2 ≤ (N : α) := by rw [← hxeq]; exact hx
      have h2 : (⌊x⌋ : α) < (N : α) := by linarith
      exact_mod_cast h2
    split <;> omega
  · rw [round_eq]
    have hhalf : ⌊(1 / 2 : α)⌋ = 0 := by
      rw [Int.floor_eq_zero_iff]
      constructor <;> norm_num
    calc ⌊x + 1 / 2⌋ ≤ ⌊(N : α) + 1 / 2⌋ := Int.floor_le_floor (by linarith)
      _ = N := by rw [add_comm, Int.floor_add_int, hhalf, zero_add]

theorem rne_int (n : ℤ) : rne ((n : ℚ)) = n := by
  unfold rne
  rw [Int.fract_intCast, if_neg (by norm_num), round_intCast]

theorem round4Q_int (n : ℤ) : round4Q ((n : ℚ)) = n := by
  unfold round4Q
  rw [show ((n : ℚ) * 10000) = (((n * 10000 : ℤ) : ℚ)) from by push_cast; ring, rne_int]
  push_cast
  field_simp

theorem round4R_bounds {x : ℝ} (h0 : 0 ≤ x) (h1 : x ≤ 1) :
    0 ≤ round4R x ∧ round4R x ≤ 1 := by
  have ha : (0 : ℝ) ≤ x * 10000 := by positivity
  have hb : x * 10000 ≤ ((10000 : ℤ) : ℝ) := by push_cast; nlinarith
  have c1 := rne_nonneg ha
  have c2 := rne_le_of_le hb
  unfold round4R
  constructor
  · exact div_nonneg (by exact_mod_cast c1) (by norm_num)
  · rw [div_le_one (by norm_num)]
    calc ((rne (x * 10000) : ℤ) : ℝ) ≤ ((10000 : ℤ) : ℝ) := by exact_mod_cast c2
      _ = 10000 := by norm_num

theorem quantile995_pos (l : List ℚ) (hne : l ≠ []) (hpos : ∀ x ∈ l, 0 < x) :
    0 < quantile995 l := by
  have hperm := List.perm_insertionSort (· ≤ · : ℚ → ℚ → Prop) l
  have hsorted := List.sorted_insertionSort (· ≤ · : ℚ → ℚ → Prop) l
  have hlen : (List.insertionSort (· ≤ ·) l).length = l.length := hperm.length_eq
  have hmem : ∀ x ∈ List.insertionSort (· ≤ · : ℚ → ℚ → Prop) l, 0 < x := fun x hx =>
    hpos x (hperm.mem_iff.1 hx)
  have hn : 0 < l.length := List.length_pos.2 hne
  have hh0 : (0 : ℚ) ≤ (995 : ℚ) / 1000 * ((l.length : ℚ) - 1) := by
    have : (1 : ℚ) ≤ (l.length : ℚ) := by exact_mod_cast hn
    nlinarith
  have hfl0 : (0 : ℤ) ≤ ⌊(995 : ℚ) / 1000 * ((l.length : ℚ) - 1)⌋ := Int.floor_nonneg.2 hh0
  have hile : (⌊(995 : ℚ) / 1000 * ((l.length : ℚ) - 1)⌋.toNat : ℚ) ≤
      (995 : ℚ) / 1000 * ((l.length : ℚ) - 1) := by
    have hcast : ((⌊(995 : ℚ) / 1000 * ((l.length : ℚ) - 1)⌋.toNat : ℕ) : ℚ) =
        ((⌊(995 : ℚ) / 1000 * ((l.length : ℚ) - 1)⌋ : ℤ) : ℚ) := by
      exact_mod_cast congrArg (fun z : ℤ => (z : ℚ)) (Int.toNat_of_nonneg hfl0)
    rw [hcast]
    exact Int.floor_le _
  have hilt : ⌊(995 : ℚ) / 1000 * ((l.length : ℚ) - 1)⌋.toNat < l.length := by
    have hle : (995 : ℚ) / 1000 * ((l.length : ℚ) - 1) ≤ (l.length : ℚ) - 1 := by
      have : (1 : ℚ) ≤ (l.length : ℚ) := by exact_mod_cast hn
      nlinarith
    have h2 : ⌊(995 : ℚ) / 1000 * ((l.length : ℚ) - 1)⌋ ≤ (l.length : ℤ) - 1 := by
      calc ⌊(995 : ℚ) / 1000 * ((l.length : ℚ) - 1)⌋ ≤ ⌊(l.length : ℚ) - 1⌋ :=
            Int.floor_le_floor hle
        _ = (l.length : ℤ) - 1 := by
            rw [show ((l.length : ℚ) - 1) = (((l.length : ℤ) - 1 : ℤ) : ℚ) by push_cast; ring,
              Int.floor_intCast]
    omega
  set s := List.insertionSort (· ≤ · : ℚ → ℚ → Prop) l with hs
  set i := ⌊(995 : ℚ) / 1000 * ((l.length : ℚ) - 1)⌋.toNat with hi
  have hislt : i < s.length := by rw [hlen]; exact hilt
  have hgetpos : 0 < s.getD i 0 := by
    rw [List.getD_eq_getElem?_getD, List.getElem?_eq_getElem hislt, Option.getD_some]
    exact hmem _ (List.getElem_mem hislt)
  rw [show quantile995 l =
      (if i + 1 < s.length then
        s.getD i 0 +
          ((995 : ℚ) / 1000 * ((l.length : ℚ) - 1) - (i : ℚ)) *
            (s.getD (i + 1) 0 - s.getD i 0)
      else s.getD i 0) from rfl]
  split
  · next hlt2 =>
    have hgetpos2 : 0 < s.getD (i + 1) 0 := by
      rw [List.getD_eq_getElem?_getD, List.getElem?_eq_getElem hlt2, Option.getD_some]
      exact hmem _ (List.getElem_mem hlt2)
    have hab : s.getD i 0 ≤ s.getD (i + 1) 0 := by
      rw [List.getD_eq_getElem?_getD, List.getElem?_eq_getElem hislt, Option.getD_some,
        List.getD_eq_getElem?_getD, List.getElem?_eq_getElem hlt2, Option.getD_some]
      have := hsorted.rel_get_of_lt
        (a := ⟨i, hislt⟩) (b := ⟨i + 1, hlt2⟩) (by simp)
      simpa using this
    nlinarith [hile]
  · exact hgetpos

/-! ### Facts about the loaded measurements -/

theorem loadMeasurements_pos (raw : List RawMeasurement) :
    ∀ m ∈ loadMeasurements raw, 0 < m.heat_flow := by
  intro m hm
  have := (List.mem_filter.1 hm).2
  simpa using this

theorem havTreeRad_nonneg (a b c d : ℝ) : 0 ≤ havTreeRad a b c d := by
  unfold havTreeRad
  have := Real.arcsin_nonneg.2 (Real.sqrt_nonneg (havA a b c d))
  linarith

theorem foldl_min_nonneg (l : List ℝ) (x : ℝ) (hx : 0 ≤ x) (hl : ∀ y ∈ l, 0 ≤ y) :
    0 ≤ l.foldl min x := by
  induction l generalizing x with
  | nil => exact hx
  | cons y l ih =>
    exact ih (min x y) (le_min hx (hl y (by simp))) fun z hz => hl z (by simp [hz])

theorem nearestRad_nonneg (p : ℚ × ℚ) (bs : List (ℚ × ℚ)) : 0 ≤ nearestRad p bs := by
  unfold nearestRad
  cases bs with
  | nil => exact le_refl 0
  | cons b rest =>
    apply foldl_min_nonneg
    · exact havTreeRad_nonneg _ _ _ _
    · intro y hy
      rcases List.mem_map.1 hy with ⟨c, _, rfl⟩
      exact havTreeRad_nonneg _ _ _ _

/-- Claim C1: every measurement that survives filtering has composite
score exactly `round((0.70 * hf_score + 0.30 * proximity), 4)`, where
`hf_score` and `proximity` are that same measurement's fields. -/
theorem composite_score_formula (rawM : List RawMeasurement) (bs : List (ℚ × ℚ))
    (s : Scored) (hs : s ∈ scoreMeasurements (loadMeasurements rawM) bs) :
    s.score = round4R (0.70 * ((s.hf_score : ℚ) : ℝ) + 0.30 * s.proximity) := by
  rcases List.mem_map.1 hs with ⟨m, _, rfl⟩
  rfl

theorem composite_score_formula_witness :
    (scoreRow
        (quantile995 ((loadMeasurements [⟨some 0, some 0, some 100, none⟩]).map
          Measurement.heat_flow)) [(0, 0)] ⟨0, 0, 100⟩ ∈
      scoreMeasurements (loadMeasurements [⟨some 0, some 0, some 100, none⟩]) [(0, 0)]) ∧
    (scoreRow
        (quantile995 ((loadMeasurements [⟨some 0, some 0, some 100, none⟩]).map
          Measurement.heat_flow)) [(0, 0)] ⟨0, 0, 100⟩).score =
      round4R (0.70 * (((scoreRow
          (quantile995 ((loadMeasurements [⟨some 0, some 0, some 100, none⟩]).map
            Measurement.heat_flow)) [(0, 0)] ⟨0, 0, 100⟩).hf_score : ℚ) : ℝ) +
        0.30 * (scoreRow
          (quantile995 ((loadMeasurements [⟨some 0, some 0, some 100, none⟩]).map
            Measurement.heat_flow)) [(0, 0)] ⟨0, 0, 100⟩).proximity) := by
  have hmem : scoreRow
      (quantile995 ((loadMeasurements [⟨some 0, some 0, some 100, none⟩]).map
        Measurement.heat_flow)) [(0, 0)] ⟨0, 0, 100⟩ ∈
      scoreMeasurements (loadMeasurements [⟨some 0, some 0, some 100, none⟩]) [(0, 0)] :=
    List.mem_map_of_mem _ (by decide)
  exact ⟨hmem, composite_score_formula _ _ _ hmem⟩

/-- Claim C6: the resolved heat flow of a raw row is the corrected
field `qc` when present and otherwise the raw field `q`, and a row
enters scoring iff both coordinates are present and the resolved heat
flow is present and strictly positive — all other rows are dropped. -/
theorem loadMeasurements_spec (raw : List RawMeasurement) (r : RawMeasurement) :
    resolveHF r = (match r.qc with | some v => some v | none => r.q) ∧
    loadMeasurements raw = raw.filterMap fun a =>
      match a.lat_NS, a.long_EW, resolveHF a with
      | some la, some lo, some hf =>
        if 0 < hf then some (⟨la, lo, hf⟩ : Measurement) else none
      | _, _, _ => none := by
  refine ⟨rfl, ?_⟩
  induction raw with
  | nil => rfl
  | cons a l ih =>
    rw [List.filterMap_cons]
    rcases hla : a.lat_NS with _ | la <;> rcases hlo : a.long_EW with _ | lo <;>
      rcases hhf : resolveHF a with _ | hf <;>
        simp only [loadMeasurements, dropNA, List.filterMap_cons, hla, hlo, hhf] at ih ⊢ <;>
          try exact ih
    rcases lt_or_le 0 hf with hpos | hneg
    · rw [if_pos hpos, List.filter_cons_of_pos (by simpa using hpos)]
      exact congrArg _ ih
    · rw [if_neg (not_lt.2 hneg), List.filter_cons_of_neg (by simpa using hneg)]
      exact ih

/-- Claim C8: every scored measurement has `0 ≤ hf_score ≤ 1`,
`0 < proximity ≤ 1` and `0 ≤ composite score ≤ 1`; the proximity equals
`exp(-dist_km / 300)` and equals `1` at distance `0`. -/
theorem score_ranges (rawM : List RawMeasurement) (bs : List (ℚ × ℚ)) (s : Scored)
    (hs : s ∈ scoreMeasurements (loadMeasurements rawM) bs) :
    (0 ≤ s.hf_score ∧ s.hf_score ≤ 1) ∧
    (0 < s.proximity ∧ s.proximity ≤ 1) ∧
    (0 ≤ s.score ∧ s.score ≤ 1) ∧
    s.proximity = Real.exp (-s.dist_km / 300) ∧
    (s.dist_km = 0 → s.proximity = 1) := by
  rcases List.mem_map.1 hs with ⟨m, hm, rfl⟩
  have hmpos : 0 < m.heat_flow := loadMeasurements_pos _ m hm
  have hcap : 0 < quantile995 ((loadMeasurements rawM).map Measurement.heat_flow) := by
    apply quantile995_pos
    · intro h
      have hnil : loadMeasurements rawM = [] := List.map_eq_nil_iff.1 h
      rw [hnil] at hm
      simp at hm
    · intro x hx
      rcases List.mem_map.1 hx with ⟨m', hm', rfl⟩
      exact loadMeasurements_pos _ m' hm'
  set cap := quantile995 ((loadMeasurements rawM).map Measurement.heat_flow) with hcapdef
  have hhf0 : 0 ≤ hfScore cap m.heat_flow :=
    div_nonneg (le_min hmpos.le hcap.le) hcap.le
  have hhf1 : hfScore cap m.heat_flow ≤ 1 := by
    rw [hfScore, div_le_one hcap]
    exact min_le_right _ _
  have hd : (0 : ℝ) ≤ nearestRad (m.lat, m.lon) bs * 6371 :=
    mul_nonneg (nearestRad_nonneg _ _) (by norm_num)
  have hexp0 : (0 : ℝ) < Real.exp (-(nearestRad (m.lat, m.lon) bs * 6371) / 300) :=
    Real.exp_pos _
  have hexp1 : Real.exp (-(nearestRad (m.lat, m.lon) bs * 6371) / 300) ≤ 1 :=
    Real.exp_le_one_iff.2 (by rw [neg_div]; exact neg_nonpos.2 (by positivity))
  have hx0 : (0 : ℝ) ≤ 0.70 * ((hfScore cap m.heat_flow : ℚ) : ℝ) +
      0.30 * Real.exp (-(nearestRad (m.lat, m.lon) bs * 6371) / 300) := by
    have : (0 : ℝ) ≤ ((hfScore cap m.heat_flow : ℚ) : ℝ) := by exact_mod_cast hhf0
    nlinarith
  have hx1 : 0.70 * ((hfScore cap m.heat_flow : ℚ) : ℝ) +
      0.30 * Real.exp (-(nearestRad (m.lat, m.lon) bs * 6371) / 300) ≤ 1 := by
    have : ((hfScore cap m.heat_flow : ℚ) : ℝ) ≤ 1 := by exact_mod_cast hhf1
    nlinarith
  refine ⟨⟨hhf0, hhf1⟩, ⟨hexp0, hexp1⟩,
    ⟨(round4R_bounds hx0 hx1).1, (round4R_bounds hx0 hx1).2⟩, rfl, ?_⟩
  intro h0
  show Real.exp (-(nearestRad (m.lat, m.lon) bs * 6371) / 300) = 1
  have : nearestRad (m.lat, m.lon) bs * 6371 = 0 := h0
  rw [this]
  norm_num

theorem score_ranges_witness :
    (scoreRow
        (quantile995 ((loadMeasurements [⟨some 0, some 0, none, some 50⟩]).map
          Measurement.heat_flow)) [(0, 90)] ⟨0, 0, 50⟩ ∈
      scoreMeasurements (loadMeasurements [⟨some 0, some 0, none, some 50⟩]) [(0, 90)]) ∧
    (0 ≤ (scoreRow
        (quantile995 ((loadMeasurements [⟨some 0, some 0, none, some 50⟩]).map
          Measurement.heat_flow)) [(0, 90)] ⟨0, 0, 50⟩).hf_score ∧
      (scoreRow
        (quantile995 ((loadMeasurements [⟨some 0, some 0, none, some 50⟩]).map
          Measurement.heat_flow)) [(0, 90)] ⟨0, 0, 50⟩).hf_score ≤ 1) ∧
    (0 < (scoreRow
        (quantile995 ((loadMeasurements [⟨some 0, some 0, none, some 50⟩]).map
          Measurement.heat_flow)) [(0, 90)] ⟨0, 0, 50⟩).proximity ∧
      (scoreRow
        (quantile995 ((loadMeasurements [⟨some 0, some 0, none, some 50⟩]).map
          Measurement.heat_flow)) [(0, 90)] ⟨0, 0, 50⟩).proximity ≤ 1) ∧
    (0 ≤ (scoreRow
        (quantile995 ((loadMeasurements [⟨some 0, some 0, none, some 50⟩]).map
          Measurement.heat_flow)) [(0, 90)] ⟨0, 0, 50⟩).score ∧
      (scoreRow
        (quantile995 ((loadMeasurements [⟨some 0, some 0, none, some 50⟩]).map
          Measurement.heat_flow)) [(0, 90)] ⟨0, 0, 50⟩).score ≤ 1) := by
  have hmem : scoreRow
      (quantile995 ((loadMeasurements [⟨some 0, some 0, none, some 50⟩]).map
        Measurement.heat_flow)) [(0, 90)] ⟨0, 0, 50⟩ ∈
      scoreMeasurements (loadMeasurements [⟨some 0, some 0, none, some 50⟩]) [(0, 90)] :=
    List.mem_map_of_mem _ (by decide)
  have h := score_ranges _ _ _ hmem
  exact ⟨hmem, h.1, h.2.1, h.2.2.1⟩

/-- Claim C4: for a non-empty surviving measurement set, the cap is the
99.5th percentile of the surviving heat flows, each measurement's
`hf_score` is `min(heat_flow, cap) / cap`, and every `hf_score` is at
most `1`. -/
theorem cap_normalization (rawM : List RawMeasurement) (bs : List (ℚ × ℚ)) (s : Scored)
    (hne : loadMeasurements rawM ≠ [])
    (hs : s ∈ scoreMeasurements (loadMeasurements rawM) bs) :
    scoreMeasurements (loadMeasurements rawM) bs =
      (loadMeasurements rawM).map
        (scoreRow (quantile995 ((loadMeasurements rawM).map Measurement.heat_flow)) bs) ∧
    s.hf_score =
      min s.heat_flow (quantile995 ((loadMeasurements rawM).map Measurement.heat_flow)) /
        quantile995 ((loadMeasurements rawM).map Measurement.heat_flow) ∧
    s.hf_score ≤ 1 := by
  refine ⟨rfl, ?_, ((score_ranges rawM bs s hs).1).2⟩
  rcases List.mem_map.1 hs with ⟨m, _, rfl⟩
  rfl

theorem cap_normalization_witness :
    (loadMeasurements [⟨some 10, some 20, some 80, some 50⟩] ≠ []) ∧
    (scoreRow
        (quantile995 ((loadMeasurements [⟨some 10, some 20, some 80, some 50⟩]).map
          Measurement.heat_flow)) [(0, 0)] ⟨10, 20, 80⟩ ∈
      scoreMeasurements (loadMeasurements [⟨some 10, some 20, some 80, some 50⟩]) [(0, 0)]) ∧
    (scoreRow
        (quantile995 ((loadMeasurements [⟨some 10, some 20, some 80, some 50⟩]).map
          Measurement.heat_flow)) [(0, 0)] ⟨10, 20, 80⟩).hf_score =
      min (scoreRow
          (quantile995 ((loadMeasurements [⟨some 10, some 20, some 80, some 50⟩]).map
            Measurement.heat_flow)) [(0, 0)] ⟨10, 20, 80⟩).heat_flow
        (quantile995 ((loadMeasurements [⟨some 10, some 20, some 80, some 50⟩]).map
          Measurement.heat_flow)) /
        quantile995 ((loadMeasurements [⟨some 10, some 20, some 80, some 50⟩]).map
          Measurement.heat_flow) ∧
    (scoreRow
        (quantile995 ((loadMeasurements [⟨some 10, some 20, some 80, some 50⟩]).map
          Measurement.heat_flow)) [(0, 0)] ⟨10, 20, 80⟩).hf_score ≤ 1 := by
  have hne : loadMeasurements [(⟨some 10, some 20, some 80, some 50⟩ : RawMeasurement)] ≠ [] := by
    decide
  have hmem : scoreRow
      (quantile995 ((loadMeasurements [⟨some 10, some 20, some 80, some 50⟩]).map
        Measurement.heat_flow)) [(0, 0)] ⟨10, 20, 80⟩ ∈
      scoreMeasurements (loadMeasurements [⟨some 10, some 20, some 80, some 50⟩]) [(0, 0)] :=
    List.mem_map_of_mem _ (by decide)
  have h := cap_normalization _ [(0, 0)] _ hne hmem
  exact ⟨hne, hmem, h.2.1, h.2.2⟩

/-- Claim C10: the haversine intermediate is clamped to `[0, 1]` before
the square root and the arcsine, so for every real input the selection
distance is totally defined: the clamped value lies in `[0, 1]`, its
square root lies inside the arcsine domain, and the distance itself is
a well-defined value in `[0, 6371 π]`. -/
theorem havSelKm_total (lat1 lon1 lat2 lon2 : ℝ) :
    0 ≤ clip01 (havA lat1 lon1 lat2 lon2) ∧
    clip01 (havA lat1 lon1 lat2 lon2) ≤ 1 ∧
    Real.sqrt (clip01 (havA lat1 lon1 lat2 lon2)) ≤ 1 ∧
    0 ≤ havSelKm lat1 lon1 lat2 lon2 ∧
    havSelKm lat1 lon1 lat2 lon2 ≤ 2 * 6371 * (Real.pi / 2) := by
  have h0 : 0 ≤ clip01 (havA lat1 lon1 lat2 lon2) :=
    le_min (le_max_right _ _) zero_le_one
  have h1 : clip01 (havA lat1 lon1 lat2 lon2) ≤ 1 := min_le_right _ _
  have hs : Real.sqrt (clip01 (havA lat1 lon1 lat2 lon2)) ≤ 1 := by
    calc Real.sqrt (clip01 (havA lat1 lon1 lat2 lon2)) ≤ Real.sqrt 1 :=
          Real.sqrt_le_sqrt h1
      _ = 1 := Real.sqrt_one
  refine ⟨h0, h1, hs, ?_, ?_⟩
  · have := Real.arcsin_nonneg.2 (Real.sqrt_nonneg (clip01 (havA lat1 lon1 lat2 lon2)))
    unfold havSelKm
    positivity
  · unfold havSelKm
    have := Real.arcsin_le_pi_div_two
      (Real.sqrt (clip01 (havA lat1 lon1 lat2 lon2)))
    nlinarith [this]

/-! ### Grouping lemmas for the boundary paths -/

theorem insertPt_keys (segs : List (String × List (ℚ × ℚ))) (p : String) (pt : ℚ × ℚ) :
    (insertPt segs p pt).map Prod.fst =
      if p ∈ segs.map Prod.fst then segs.map Prod.fst
      else segs.map Prod.fst ++ [p] := by
  induction segs with
  | nil => simp [insertPt]
  | cons hd tl ih =>
    obtain ⟨q₀, pts⟩ := hd
    by_cases hq : q₀ = p
    · subst hq
      simp [insertPt]
    · simp only [insertPt, if_neg hq, List.map_cons]
      by_cases hmem : p ∈ tl.map Prod.fst
      · simp [ih, hmem, Ne.symm hq]
      · simp [ih, hmem, Ne.symm hq]

theorem findPath_nil (p : String) : findPath [] p = none := rfl

theorem findPath_cons_self (q₀ : String) (pts₀ : List (ℚ × ℚ))
    (tl : List (String × List (ℚ × ℚ))) : findPath ((q₀, pts₀) :: tl) q₀ = some pts₀ := by
  simp [findPath, List.find?_cons_of_pos]

theorem findPath_cons_of_ne (q₀ : String) (pts₀ : List (ℚ × ℚ))
    (tl : List (String × List (ℚ × ℚ))) (p : String) (h : q₀ ≠ p) :
    findPath ((q₀, pts₀) :: tl) p = findPath tl p := by
  simp only [findPath]
  rw [List.find?_cons_of_neg _ (by simp [h])]

theorem findPath_insertPt (segs : List (String × List (ℚ × ℚ))) (p p' : String)
    (pt : ℚ × ℚ) :
    findPath (insertPt segs p pt) p' =
      if p' = p then
        (match findPath segs p with
         | some pts => some (pts ++ [pt])
         | none => some [pt])
      else findPath segs p' := by
  induction segs with
  | nil =>
    by_cases h : p' = p
    · subst h
      rw [show insertPt [] p' pt = [(p', [pt])] from rfl, findPath_cons_self, if_pos rfl]
      rfl
    · rw [show insertPt [] p pt = [(p, [pt])] from rfl,
        findPath_cons_of_ne _ _ _ _ (Ne.symm h), if_neg h]
  | cons hd tl ih =>
    obtain ⟨q₀, pts₀⟩ := hd
    by_cases hq : q₀ = p
    · subst hq
      rw [show insertPt ((q₀, pts₀) :: tl) q₀ pt = (q₀, pts₀ ++ [pt]) :: tl from by
        simp [insertPt]]
      by_cases h' : p' = q₀
      · subst h'
        rw [findPath_cons_self, findPath_cons_self, if_pos rfl]
      · rw [findPath_cons_of_ne _ _ _ _ (Ne.symm h'),
          findPath_cons_of_ne _ _ _ _ (Ne.symm h'), if_neg h']
    · rw [show insertPt ((q₀, pts₀) :: tl) p pt = (q₀, pts₀) :: insertPt tl p pt from by
        simp [insertPt, hq]]
      by_cases h' : p' = q₀
      · subst h'
        rw [findPath_cons_self, if_neg (fun hc : p' = p => hq (hc ▸ rfl)),
          findPath_cons_self]
      · rw [findPath_cons_of_ne _ _ _ _ (Ne.symm h'), ih]
        by_cases hp : p' = p
        · rw [if_pos hp, if_pos hp, findPath_cons_of_ne _ _ _ _ hq]
        · rw [if_neg hp, if_neg hp, findPath_cons_of_ne _ _ _ _ (Ne.symm h')]

theorem findPath_foldl (rows : List (String × (ℚ × ℚ)))
    (acc : List (String × List (ℚ × ℚ))) (p : String) :
    findPath (rows.foldl (fun segs t => insertPt segs t.1 t.2) acc) p =
      match findPath acc p with
      | some pts => some (pts ++ (rows.filter (fun t => t.1 = p)).map Prod.snd)
      | none =>
        if p ∈ rows.map Prod.fst then
          some ((rows.filter (fun t => t.1 = p)).map Prod.snd)
        else none := by
  induction rows generalizing acc with
  | nil => cases h : findPath acc p <;> simp [h]
  | cons r rows ih =>
    obtain ⟨r1, r2⟩ := r
    rw [List.foldl_cons, ih, findPath_insertPt]
    by_cases hr : p = r1
    · subst hr
      rw [if_pos rfl]
      have hfil : ((p, r2) :: rows).filter (fun t => t.1 = p) =
          (p, r2) :: rows.filter (fun t => t.1 = p) :=
        List.filter_cons_of_pos (by simp)
      cases h : findPath acc p with
      | some pts => simp [h, hfil]
      | none => simp [h, hfil]
    · rw [if_neg hr]
      have hfil : ((r1, r2) :: rows).filter (fun t => t.1 = p) =
          rows.filter (fun t => t.1 = p) :=
        List.filter_cons_of_neg (by simpa using Ne.symm hr)
      cases h : findPath acc p with
      | some pts => simp [h, hfil]
      | none =>
        simp only [h, hfil, List.map_cons]
        exact (if_congr (by simp [hr]) rfl rfl).symm

theorem keys_foldl_nodup (rows : List (String × (ℚ × ℚ)))
    (acc : List (String × List (ℚ × ℚ))) (h : (acc.map Prod.fst).Nodup) :
    ((rows.foldl (fun segs t => insertPt segs t.1 t.2) acc).map Prod.fst).Nodup := by
  induction rows generalizing acc with
  | nil => exact h
  | cons r rows ih =>
    rw [List.foldl_cons]
    apply ih
    rw [insertPt_keys]
    split
    · exact h
    · next hnot =>
      exact List.Nodup.append h (List.nodup_singleton _) (by simpa using hnot)

/-- Claim C7: the path builder outputs exactly one path per distinct
plate id (the key list has no duplicates, and a plate has a path iff it
occurs among the surviving rows); the path of a plate is the list of
that plate's points in row order; and on the three rows
`[(A, pt1), (B, pt2), (A, pt3)]` it yields exactly the two paths
`A = [pt1, pt3]` and `B = [pt2]`. -/
theorem buildPaths_spec (raw : List RawBoundary) (p : String) :
    ((buildPaths raw).map Prod.fst).Nodup ∧
    findPath (buildPaths raw) p =
      (if p ∈ (boundaryRows raw).map Prod.fst then
        some (((boundaryRows raw).filter (fun t => t.1 = p)).map Prod.snd)
      else none) ∧
    buildPaths [⟨some 1, some 2, "A"⟩, ⟨some 3, some 4, "B"⟩, ⟨some 5, some 6, "A"⟩] =
      [("A", [(2, 1), (6, 5)]), ("B", [(4, 3)])] := by
  refine ⟨keys_foldl_nodup _ _ (by simp), ?_, ?_⟩
  · rw [buildPaths, findPath_foldl]
    simp [findPath]
  · have h1 : round4Q (1 : ℚ) = 1 := by simpa using round4Q_int 1
    have h2 : round4Q (2 : ℚ) = 2 := by simpa using round4Q_int 2
    have h3 : round4Q (3 : ℚ) = 3 := by simpa using round4Q_int 3
    have h4 : round4Q (4 : ℚ) = 4 := by simpa using round4Q_int 4
    have h5 : round4Q (5 : ℚ) = 5 := by simpa using round4Q_int 5
    have h6 : round4Q (6 : ℚ) = 6 := by simpa using round4Q_int 6
    simp [buildPaths, boundaryRows, insertPt, h1, h2, h3, h4, h5, h6]

/-! ### Lemmas about the greedy selection loop -/

instance : IsTotal Scored scoreGE := ⟨fun a b => le_total b.score a.score⟩

instance : IsTrans Scored scoreGE := ⟨fun _ _ _ h1 h2 => le_trans h2 h1⟩

theorem sortDesc_sorted (l : List Scored) : (sortDesc l).Sorted scoreGE :=
  List.sorted_insertionSort scoreGE l

theorem greedyAux_length_le (l : List Scored) (acc : List (ℕ × Scored))
    (h : acc.length ≤ 20) : (greedyAux acc l).length ≤ 20 := by
  induction l generalizing acc with
  | nil => simpa [greedyAux] using h
  | cons x xs ih =>
    rw [greedyAux]
    split
    · exact h
    · split
      · exact ih acc h
      · next h20 _ =>
        apply ih
        rw [List.length_append]
        simp only [List.length_singleton]
        omega

theorem greedyAux_ranks (l : List Scored) (acc : List (ℕ × Scored))
    (h : acc.map Prod.fst = List.range' 1 acc.length) :
    (greedyAux acc l).map Prod.fst = List.range' 1 (greedyAux acc l).length := by
  induction l generalizing acc with
  | nil => simpa [greedyAux] using h
  | cons x xs ih =>
    rw [greedyAux]
    split
    · exact h
    · split
      · exact ih acc h
      · apply ih
        rw [List.map_append, h, List.length_append]
        simp [List.range'_concat, Nat.add_comm]

theorem greedyAux_pairwise (l : List Scored) (acc : List (ℕ × Scored))
    (h : acc.Pairwise fun a b => ¬ tooClose b.2 a.2) :
    (greedyAux acc l).Pairwise fun a b => ¬ tooClose b.2 a.2 := by
  induction l generalizing acc with
  | nil => simpa [greedyAux] using h
  | cons x xs ih =>
    rw [greedyAux]
    split
    · exact h
    · split
      · exact ih acc h
      · next hno =>
        apply ih
        rw [List.pairwise_append]
        refine ⟨h, List.pairwise_singleton _ _, ?_⟩
        intro a ha b hb
        rw [List.mem_singleton] at hb
        subst hb
        exact fun hc => hno ⟨a, ha, hc⟩

theorem greedyAux_sublist (l : List Scored) (acc : List (ℕ × Scored)) :
    ∃ t, t.Sublist l ∧ (greedyAux acc l).map Prod.snd = acc.map Prod.snd ++ t := by
  induction l generalizing acc with
  | nil => exact ⟨[], List.Sublist.refl _, by simp [greedyAux]⟩
  | cons x xs ih =>
    rw [greedyAux]
    split
    · exact ⟨[], List.nil_sublist _, by simp⟩
    · split
      · obtain ⟨t, hsub, heq⟩ := ih acc
        exact ⟨t, hsub.cons _, heq⟩
      · obtain ⟨t, hsub, heq⟩ := ih (acc ++ [(acc.length + 1, x)])
        refine ⟨x :: t, hsub.cons₂ _, ?_⟩
        rw [heq, List.map_append]
        simp

/-- Claim C2, amended: the greedy selector returns at most 20 sites;
ranks form the contiguous sequence 1, 2, 3, ... in acceptance order;
every later-accepted site is at distance ≥ 500 km from each
earlier-accepted site as the loop measures it (the candidate's
coordinates against the stored 4-decimal-rounded coordinates of the
accepted site); and the accepted composite scores are non-strictly
descending along the acceptance order. (The frozen claim's "strictly
descending" fails for tied scores — see the counterexample.) -/
theorem selectSites_invariant (l : List Scored) :
    (selectSites l).length ≤ 20 ∧
    (selectSites l).map Prod.fst = List.range' 1 (selectSites l).length ∧
    ((selectSites l).Pairwise fun a b =>
      500 ≤ havSelKm (radians b.2.lat) (radians b.2.lon)
        (radians (round4Q a.2.lat)) (radians (round4Q a.2.lon))) ∧
    ((selectSites l).Pairwise fun a b => b.2.score ≤ a.2.score) := by
  refine ⟨greedyAux_length_le _ _ (by simp), greedyAux_ranks _ _ (by simp), ?_, ?_⟩
  · have h := greedyAux_pairwise (sortDesc l) [] List.Pairwise.nil
    exact h.imp fun hc => not_lt.1 hc
  · obtain ⟨t, hsub, heq⟩ := greedyAux_sublist (sortDesc l) []
    have hteq : (selectSites l).map Prod.snd = t := by simpa [selectSites] using heq
    have hsorted : t.Sorted scoreGE := (sortDesc_sorted l).sublist hsub
    have hp : ((selectSites l).map Prod.snd).Pairwise scoreGE := by
      rw [hteq]; exact hsorted
    exact List.pairwise_map.1 hp

/-- Claim C2 as frozen is refuted at this input: two sites with equal
composite score 1 at (0°, 0°) and (0°, 180°) are both accepted (they
are half the globe apart), so the accepted composite scores are not
strictly descending along the acceptance order. -/
theorem selectSites_strict_counterexample :
    selectSites [⟨0, 0, 100, 1, 0, 1, 1⟩, ⟨0, 180, 100, 1, 0, 1, 1⟩] =
      [(1, ⟨0, 0, 100, 1, 0, 1, 1⟩), (2, ⟨0, 180, 100, 1, 0, 1, 1⟩)] ∧
    ¬ ((selectSites [⟨0, 0, 100, 1, 0, 1, 1⟩, ⟨0, 180, 100, 1, 0, 1, 1⟩]).Pairwise
        fun a b => b.2.score < a.2.score) := by
  have hge : scoreGE ⟨0, 0, 100, 1, 0, 1, 1⟩ ⟨0, 180, 100, 1, 0, 1, 1⟩ := le_rfl
  have hs2 : sortDesc [(⟨0, 0, 100, 1, 0, 1, 1⟩ : Scored), ⟨0, 180, 100, 1, 0, 1, 1⟩] =
      [⟨0, 0, 100, 1, 0, 1, 1⟩, ⟨0, 180, 100, 1, 0, 1, 1⟩] := by
    simp [sortDesc, hge]
  have hr4 : round4Q 0 = 0 := by simpa using round4Q_int 0
  have hrad0 : radians 0 = 0 := by simp [radians]
  have hrad180 : radians 180 = Real.pi := by
    unfold radians
    push_cast
    rw [mul_comm, mul_div_assoc]
    norm_num
  have hnc : ¬ tooClose ⟨0, 180, 100, 1, 0, 1, 1⟩ ⟨0, 0, 100, 1, 0, 1, 1⟩ := by
    unfold tooClose havSelKm havA clip01
    simp only [hr4, hrad0, hrad180]
    rw [show ((0 : ℝ) - 0) / 2 = 0 by norm_num, show (Real.pi - 0) / 2 = Real.pi / 2 by ring]
    rw [Real.sin_zero, Real.cos_zero, Real.sin_pi_div_two]
    rw [show ((0 : ℝ) ^ 2 + 1 * 1 * 1 ^ 2) = 1 by norm_num]
    rw [show min (max (1 : ℝ) 0) 1 = 1 by norm_num, Real.sqrt_one, Real.arcsin_one]
    intro hlt
    nlinarith [Real.pi_gt_three]
  have heval : selectSites [(⟨0, 0, 100, 1, 0, 1, 1⟩ : Scored), ⟨0, 180, 100, 1, 0, 1, 1⟩] =
      [(1, ⟨0, 0, 100, 1, 0, 1, 1⟩), (2, ⟨0, 180, 100, 1, 0, 1, 1⟩)] := by
    rw [selectSites, hs2]
    simp [greedyAux, hnc]
  refine ⟨heval, ?_⟩
  intro hp
  rw [heval] at hp
  have := (List.pairwise_cons.1 hp).1 (2, ⟨0, 180, 100, 1, 0, 1, 1⟩) (by simp)
  simp at this

/-- Claim C5: if the boundary set or the measurement set is empty after
filtering, the pipeline aborts with a diagnostic (at the tree build,
resp. the tree query) and produces none of its three outputs. -/
theorem runPipeline_empty_aborts (rawM : List RawMeasurement) (rawB : List RawBoundary)
    (h : loadBoundaries rawB = [] ∨ loadMeasurements rawM = []) :
    (runPipeline rawM rawB).isOk = false := by
  unfold runPipeline
  rcases h with hb | hm
  · rw [if_pos (by simp [hb])]
    rfl
  · rcases hB : (loadBoundaries rawB).isEmpty with _ | _
    · rw [if_neg (by simp [hB]), if_pos (by simp [hm])]
      rfl
    · rw [if_pos (by simp_all)]
      rfl

theorem runPipeline_empty_aborts_witness :
    (loadBoundaries [] = [] ∨ loadMeasurements [] = []) ∧
      (runPipeline [] []).isOk = false :=
  ⟨Or.inl rfl, runPipeline_empty_aborts [] [] (Or.inl rfl)⟩

end GeoGlobe
